import Mathlib

/-!
Shallow embedding of the Codex-in-Obsidian plugin core:
the process-streaming session manager (`CodexService.sendMessage`,
`buildArgs`), the prompt/memory budgeting of the chat view, and the
note-context formatter of the vault-context builder.

JavaScript strings are modelled as `List Char`; JSON.parse is modelled by
an executable recursive-descent parser producing a dynamic `Json` value
(JSON.parse performs no schema validation, so field accesses are dynamic
lookups, mirroring the TypeScript `as CodexThreadEvent` cast).  Numeric
JSON literals are kept as their source text: no claim depends on numeric
value semantics.  The callback set (`onEvent`/`onTextChunk`/`onComplete` /
`onError`) is modelled as an ordered output trace of type `List Out`.
-/

namespace CodexPlugin

/-- JavaScript strings, modelled as lists of characters. -/
abbrev Str := List Char

/-- The newline character used for JSONL framing (`split("\n")`). -/
def nlChar : Char := Char.ofNat 10

/-- Opening curly brace character. -/
def obrace : Char := Char.ofNat 123

/-- Closing curly brace character. -/
def cbrace : Char := Char.ofNat 125

/-- Double-quote character. -/
def dquote : Char := Char.ofNat 34

/-- Backslash character. -/
def bslash : Char := Char.ofNat 92

/-- Whitespace recognised by JavaScript `String.prototype.trim`
(space, tab, LF, CR, VT, FF, NBSP cover every character occurring here). -/
def isJsWs (c : Char) : Bool :=
  c = ' ' || c = Char.ofNat 9 || c = nlChar || c = Char.ofNat 13 ||
  c = Char.ofNat 11 || c = Char.ofNat 12 || c = Char.ofNat 160

/-- Model of `s.trim()`: drop leading and trailing whitespace. -/
def trimChars (s : Str) : Str :=
  ((s.dropWhile isJsWs).reverse.dropWhile isJsWs).reverse

/-- Dynamic JSON values, as produced by `JSON.parse`.
Numeric literals are kept as raw text. -/
inductive Json where
  | null : Json
  | bool : Bool → Json
  | num : Str → Json
  | str : Str → Json
  | arr : List Json → Json
  | obj : List (Str × Json) → Json
deriving Repr

/-- Whitespace accepted between JSON tokens. -/
def isJsonWs (c : Char) : Bool :=
  c = ' ' || c = Char.ofNat 9 || c = nlChar || c = Char.ofNat 13

/-- Skip inter-token whitespace. -/
def skipWs (s : Str) : Str := s.dropWhile isJsonWs

/-- Hex digit value, if any. -/
def hexVal (c : Char) : Option Nat :=
  if '0' ≤ c ∧ c ≤ '9' then some (c.toNat - 48)
  else if 'a' ≤ c ∧ c ≤ 'f' then some (c.toNat - 87)
  else if 'A' ≤ c ∧ c ≤ 'F' then some (c.toNat - 55)
  else none

/-- Decimal digit? -/
def isDigit (c : Char) : Bool := '0' ≤ c && c ≤ '9'

/-- Parse the body of a JSON string literal (the opening quote already
consumed); returns the decoded content and the rest after the closing
quote. -/
def parseStringBody : Nat → Str → Option (Str × Str)
  | 0, _ => none
  | _, [] => none
  | fuel + 1, c :: rest =>
    if c = dquote then some ([], rest)
    else if c = bslash then
      match rest with
      | [] => none
      | e :: rest2 =>
        let cont (ch : Char) (r : Str) : Option (Str × Str) :=
          (parseStringBody fuel r).map fun p => (ch :: p.1, p.2)
        if e = dquote then cont dquote rest2
        else if e = bslash then cont bslash rest2
        else if e = '/' then cont '/' rest2
        else if e = 'b' then cont (Char.ofNat 8) rest2
        else if e = 'f' then cont (Char.ofNat 12) rest2
        else if e = 'n' then cont nlChar rest2
        else if e = 'r' then cont (Char.ofNat 13) rest2
        else if e = 't' then cont (Char.ofNat 9) rest2
        else if e = 'u' then
          match rest2 with
          | h1 :: h2 :: h3 :: h4 :: rest3 =>
            match hexVal h1, hexVal h2, hexVal h3, hexVal h4 with
            | some v1, some v2, some v3, some v4 =>
              cont (Char.ofNat (((v1 * 16 + v2) * 16 + v3) * 16 + v4)) rest3
            | _, _, _, _ => none
          | _ => none
        else none
    else (parseStringBody fuel rest).map fun p => (c :: p.1, p.2)

/-- Parse a JSON numeric literal, returning its raw text. -/
def parseNumber (s : Str) : Option (Str × Str) :=
  let (neg, s1) := match s with
    | c :: rest => if c = '-' then (['-'], rest) else (([] : Str), s)
    | [] => ([], s)
  let intPart := s1.takeWhile isDigit
  let s2 := s1.dropWhile isDigit
  if intPart = [] then none
  else
    let (fracPart, s3) := match s2 with
      | c :: rest =>
        if c = '.' then
          let ds := rest.takeWhile isDigit
          if ds = [] then (([] : Str), s2) else ('.' :: ds, rest.dropWhile isDigit)
        else ([], s2)
      | [] => ([], s2)
    let (expPart, s4) := match s3 with
      | c :: rest =>
        if c = 'e' ∨ c = 'E' then
          let (sgn, rest2) := match rest with
            | d :: rest2' => if d = '+' ∨ d = '-' then ([d], rest2') else (([] : Str), rest)
            | [] => ([], rest)
          let ds := rest2.takeWhile isDigit
          if ds = [] then (([] : Str), s3) else (c :: (sgn ++ ds), rest2.dropWhile isDigit)
        else ([], s3)
      | [] => ([], s3)
    some (neg ++ intPart ++ fracPart ++ expPart, s4)

mutual

/-- Parse one JSON value. -/
def parseValue : Nat → Str → Option (Json × Str)
  | 0, _ => none
  | fuel + 1, s =>
    match skipWs s with
    | [] => none
    | c :: rest =>
      if c = 'n' then
        match rest with
        | 'u' :: 'l' :: 'l' :: r => some (.null, r)
        | _ => none
      else if c = 't' then
        match rest with
        | 'r' :: 'u' :: 'e' :: r => some (.bool true, r)
        | _ => none
      else if c = 'f' then
        match rest with
        | 'a' :: 'l' :: 's' :: 'e' :: r => some (.bool false, r)
        | _ => none
      else if c = dquote then
        (parseStringBody (fuel + 1) rest).map fun p => (.str p.1, p.2)
      else if c = obrace then
        match skipWs rest with
        | [] => none
        | d :: rest2 =>
          if d = cbrace then some (.obj [], rest2)
          else parseMembers fuel (skipWs rest) []
      else if c = '[' then
        match skipWs rest with
        | [] => none
        | d :: rest2 =>
          if d = ']' then some (.arr [], rest2)
          else parseElems fuel (skipWs rest) []
      else if isDigit c ∨ c = '-' then
        (parseNumber (c :: rest)).map fun p => (.num p.1, p.2)
      else none

/-- Parse the members of a JSON object (after the opening brace, at least
one member present), accumulating in source order. -/
def parseMembers : Nat → Str → List (Str × Json) → Option (Json × Str)
  | 0, _, _ => none
  | fuel + 1, s, acc =>
    match skipWs s with
    | [] => none
    | c :: rest =>
      if c = dquote then
        match parseStringBody (fuel + 1) rest with
        | none => none
        | some (key, rest2) =>
          match skipWs rest2 with
          | ':' :: rest3 =>
            match parseValue fuel rest3 with
            | none => none
            | some (v, rest4) =>
              match skipWs rest4 with
              | ',' :: rest5 => parseMembers fuel rest5 (acc ++ [(key, v)])
              | d :: rest5 =>
                if d = cbrace then some (.obj (acc ++ [(key, v)]), rest5) else none
              | [] => none
          | _ => none
      else none

/-- Parse the elements of a JSON array (after the opening bracket, at
least one element present). -/
def parseElems : Nat → Str → List Json → Option (Json × Str)
  | 0, _, _ => none
  | fuel + 1, s, acc =>
    match parseValue fuel s with
    | none => none
    | some (v, rest) =>
      match skipWs rest with
      | ',' :: rest2 => parseElems fuel rest2 (acc ++ [v])
      | c :: rest2 => if c = ']' then some (.arr (acc ++ [v]), rest2) else none
      | [] => none

end

/-- Model of `JSON.parse`: parse a complete JSON document; fail (throw) if the
input is not a single JSON value followed only by whitespace. -/
def parseJson (s : Str) : Option Json :=
  match parseValue (2 * s.length + 4) s with
  | some (v, rest) => if skipWs rest = [] then some v else none
  | none => none

/-- Dynamic field access `o.k`: `undefined` (`none`) unless `o` is an
object with field `k`.  JavaScript objects keep the last duplicate key. -/
def getField (j : Json) (key : Str) : Option Json :=
  match j with
  | .obj fields => (fields.filter (fun f => f.1 = key)).getLast?.map (·.2)
  | _ => none

/-- JavaScript truthiness of a parsed JSON value (`null`, `false`, `0`
and `""` are falsy; objects and arrays are always truthy).  A numeric
literal is falsy exactly when its mantissa has no nonzero digit. -/
def truthy : Json → Bool
  | .null => false
  | .bool b => b
  | .str s => !s.isEmpty
  | .num raw => ((raw.takeWhile fun c => c ≠ 'e' ∧ c ≠ 'E').filter isDigit).any
      fun c => c ≠ '0'
  | .arr _ => true
  | .obj _ => true

/-- Strict equality `v === "tag"` on a dynamic value: only a string value can be
strictly equal to a string literal. -/
def isStrVal (o : Option Json) (tag : Str) : Bool :=
  match o with
  | some (.str s) => s = tag
  | _ => false

/-- Tag test `event.type === "tag"`. -/
def typeIs (e : Json) (tag : Str) : Bool := isStrVal (getField e ("type".toList)) tag

/-- Extraction `event.item?.type === "agent_message" && event.item.text`: returns
the item's text when the nested item is an agent message with truthy
text.  Per the `CodexItem` interface `text` is a string, whose JavaScript
truthiness is non-emptiness. -/
def agentMessageText (e : Json) : Option Str :=
  match getField e ("item".toList) with
  | some item =>
    if isStrVal (getField item ("type".toList)) ("agent_message".toList) then
      match getField item ("text".toList) with
      | some (.str t) => if t.isEmpty then none else some t
      | _ => none
    else none
  | none => none

/-- Nested string field `e.k1?.k2`, treating `null` and non-string values
as absent (`message`/`text` are strings per the interfaces; `null` falls
through `??`). -/
def strField2 (e : Json) (k1 k2 : Str) : Option Str :=
  match (getField e k1).bind (fun o => getField o k2) with
  | some (.str s) => some s
  | _ => none

/-- Preference order `event.error?.message ?? event.item?.text ?? "Unknown error"`. -/
def errMsgOf (e : Json) : Str :=
  match strField2 e ("error".toList) ("message".toList) with
  | some m => m
  | none =>
    match strField2 e ("item".toList) ("text".toList) with
    | some t => t
    | none => "Unknown error".toList

/-- The mutable per-session accumulators of `sendMessage`:
`fullText` and `lastUsage`. -/
structure SessState where
  fullText : Str
  lastUsage : Option Json
deriving Repr

/-- The callback trace: one constructor per callback of the
`CallbackSet` (`onEvent`, `onTextChunk`, `onError`,
`onComplete(fullText, lastUsage)`). -/
inductive Out where
  | ev : Json → Out
  | text : Str → Out
  | err : Str → Out
  | complete : Str → Option Json → Out
deriving Repr

/-- Is this an `onEvent` invocation? -/
def isEvOut : Out → Bool
  | .ev _ => true
  | _ => false

/-- Is this an `onTextChunk` invocation? -/
def isTextOut : Out → Bool
  | .text _ => true
  | _ => false

/-- Is this an `onError` invocation? -/
def isErrOut : Out → Bool
  | .err _ => true
  | _ => false

/-- Is this an `onComplete` invocation? -/
def isCompleteOut : Out → Bool
  | .complete _ _ => true
  | _ => false

/-- Is this a terminal callback (`onComplete` or `onError`)? -/
def isTerminal (o : Out) : Bool := isCompleteOut o || isErrOut o

/-- The decode-success branch of the per-line handler: dispatch
`onEvent`, extract agent-message text on `item.completed`, track usage on
`turn.completed`, and report `turn.failed` / `error` records through
`onError`. -/
def dispatchEvent (st : SessState) (event : Json) : SessState × List Out :=
  let textStep : SessState × List Out :=
    match agentMessageText event with
    | some t =>
      if typeIs event ("item.completed".toList) then
        ({ st with fullText := t }, [Out.text t])
      else (st, [])
    | none => (st, [])
  let st1 := textStep.1
  let st2 :=
    match getField event ("usage".toList) with
    | some u =>
      if typeIs event ("turn.completed".toList) && truthy u then
        { st1 with lastUsage := some u }
      else st1
    | none => st1
  let errOuts : List Out :=
    if typeIs event ("turn.failed".toList) || typeIs event ("error".toList) then
      [Out.err (errMsgOf event)]
    else []
  (st2, Out.ev event :: (textStep.2 ++ errOuts))

/-- Per-line processing of the stdout handler: trim, skip empty lines,
attempt `JSON.parse`, fall back to raw-text chunking on parse failure. -/
def processLine (st : SessState) (line : Str) : SessState × List Out :=
  let trimmed := trimChars line
  if trimmed = [] then (st, [])
  else
    match parseJson trimmed with
    | none =>
      ({ st with fullText := st.fullText ++ trimmed ++ [nlChar] },
        [Out.text (trimmed ++ [nlChar])])
    | some event => dispatchEvent st event

/-- Process a list of complete lines in order, threading state and
concatenating callback traces. -/
def processLines (st : SessState) : List Str → SessState × List Out
  | [] => (st, [])
  | l :: ls =>
    let p := processLine st l
    let q := processLines p.1 ls
    (q.1, p.2 ++ q.2)

/-- Model of `s.split("\n")`: always returns one more part than there are
newlines; every part is newline-free. -/
def splitNl : Str → List Str
  | [] => [[]]
  | c :: cs =>
    if c = nlChar then [] :: splitNl cs
    else
      match splitNl cs with
      | [] => [[c]]
      | p :: ps => (c :: p) :: ps

/-- The streaming state of one session: the stdout line buffer, the
accumulators, and the callback trace so far. -/
structure Machine where
  buf : Str
  st : SessState
  outs : List Out
deriving Repr

/-- One `data` event of the stdout stream, exactly as the source: append
the chunk to the buffer, split on newline, keep the last (possibly
incomplete) part as the new buffer, process every complete line. -/
def feedChunk (m : Machine) (chunk : Str) : Machine :=
  let parts := splitNl (m.buf ++ chunk)
  let p := processLines m.st parts.dropLast
  { buf := parts.getLastD [], st := p.1, outs := m.outs ++ p.2 }

/-- Feed a sequence of stdout chunks in arrival order. -/
def feedChunks (m : Machine) (chunks : List Str) : Machine :=
  chunks.foldl feedChunk m

/-- Character-level reference machine: buffer characters until a newline
arrives, then process the buffered line.  Used to prove that chunk
boundaries are invisible. -/
def stepChar (m : Machine) (c : Char) : Machine :=
  if c = nlChar then
    let p := processLine m.st m.buf
    { buf := [], st := p.1, outs := m.outs ++ p.2 }
  else { m with buf := m.buf ++ [c] }

/-- Feed a string character by character. -/
def feedString (m : Machine) (s : Str) : Machine := s.foldl stepChar m

/-- The U+FFFD replacement character emitted by `TextDecoder` for
invalid or truncated UTF-8 input. -/
def replacementChar : Char := Char.ofNat 0xFFFD

/-- Model of one fresh, NON-streaming `new TextDecoder().decode(data)`
call, as the stdout handler performs per `data` event: WHATWG UTF-8
decoding with U+FFFD replacement.  An invalid byte yields one
replacement character and decoding resumes at the next byte; a sequence
truncated at the end of THIS chunk also becomes a replacement character,
because no decoder state is carried to the next chunk.  Bytes are
naturals below 256; a four-byte sequence is modelled as its unicode
scalar value (the UTF-16 surrogate-pair representation inside
JavaScript strings is abstracted away). -/
def decodeUtf8Go : Nat → List Nat → List Char
  | 0, _ => []
  | _ + 1, [] => []
  | fuel + 1, b1 :: rest =>
    if b1 < 0x80 then Char.ofNat b1 :: decodeUtf8Go fuel rest
    else if 0xC2 ≤ b1 ∧ b1 ≤ 0xDF then
      match rest with
      | [] => [replacementChar]
      | b2 :: rest2 =>
        if 0x80 ≤ b2 ∧ b2 ≤ 0xBF then
          Char.ofNat ((b1 - 0xC0) * 0x40 + (b2 - 0x80)) :: decodeUtf8Go fuel rest2
        else replacementChar :: decodeUtf8Go fuel rest
    else if 0xE0 ≤ b1 ∧ b1 ≤ 0xEF then
      match rest with
      | [] => [replacementChar]
      | b2 :: rest2 =>
        if (if b1 = 0xE0 then 0xA0 ≤ b2 ∧ b2 ≤ 0xBF
            else if b1 = 0xED then 0x80 ≤ b2 ∧ b2 ≤ 0x9F
            else 0x80 ≤ b2 ∧ b2 ≤ 0xBF) then
          match rest2 with
          | [] => [replacementChar]
          | b3 :: rest3 =>
            if 0x80 ≤ b3 ∧ b3 ≤ 0xBF then
              Char.ofNat ((b1 - 0xE0) * 0x1000 + (b2 - 0x80) * 0x40 + (b3 - 0x80)) ::
                decodeUtf8Go fuel rest3
            else replacementChar :: decodeUtf8Go fuel rest2
        else replacementChar :: decodeUtf8Go fuel rest
    else if 0xF0 ≤ b1 ∧ b1 ≤ 0xF4 then
      match rest with
      | [] => [replacementChar]
      | b2 :: rest2 =>
        if (if b1 = 0xF0 then 0x90 ≤ b2 ∧ b2 ≤ 0xBF
            else if b1 = 0xF4 then 0x80 ≤ b2 ∧ b2 ≤ 0x8F
            else 0x80 ≤ b2 ∧ b2 ≤ 0xBF) then
          match rest2 with
          | [] => [replacementChar]
          | b3 :: rest3 =>
            if 0x80 ≤ b3 ∧ b3 ≤ 0xBF then
              match rest3 with
              | [] => [replacementChar]
              | b4 :: rest4 =>
                if 0x80 ≤ b4 ∧ b4 ≤ 0xBF then
                  Char.ofNat ((b1 - 0xF0) * 0x40000 + (b2 - 0x80) * 0x1000 +
                    (b3 - 0x80) * 0x40 + (b4 - 0x80)) :: decodeUtf8Go fuel rest4
                else replacementChar :: decodeUtf8Go fuel rest3
            else replacementChar :: decodeUtf8Go fuel rest2
        else replacementChar :: decodeUtf8Go fuel rest
    else replacementChar :: decodeUtf8Go fuel rest

/-- Decode one whole byte chunk (the fuel bounds the recursion and is
ample: at least one byte is consumed per step). -/
def decodeUtf8 (bs : List Nat) : List Char := decodeUtf8Go (bs.length + 1) bs

/-- One stdout `data` event at the byte level, exactly as the source:
decode the byte chunk with a fresh non-streaming decoder, then run the
buffering line-splitting handler on the decoded text. -/
def feedByteChunk (m : Machine) (data : List Nat) : Machine :=
  feedChunk m (decodeUtf8 data)

/-- Feed a sequence of stdout byte chunks in arrival order. -/
def feedByteChunks (m : Machine) (chunks : List (List Nat)) : Machine :=
  chunks.foldl feedByteChunk m

/-- The close handler's final pass over a leftover partial line: on
decode success dispatch `onEvent` and overwrite `fullText` whenever the
item is an agent message with text (no `item.completed` check, no
`onTextChunk`, no usage or error-record handling); on failure append the
trimmed fragment (without a newline) and forward it. -/
def finalFlush (buf : Str) (st : SessState) : SessState × List Out :=
  if trimChars buf = [] then (st, [])
  else
    match parseJson (trimChars buf) with
    | some event =>
      match agentMessageText event with
      | some tx => ({ st with fullText := tx }, [Out.ev event])
      | none => (st, [Out.ev event])
    | none =>
      ({ st with fullText := st.fullText ++ trimChars buf }, [Out.text (trimChars buf)])

/-- Message `Codex exited with code <c>`. -/
def exitMsgPlain (c : Int) : Str :=
  "Codex exited with code ".toList ++ (toString c).toList

/-- Message `Codex exited with code <c>. <first 500 chars of stderr>`. -/
def exitMsgStderr (c : Int) (stderr : Str) : Str :=
  "Codex exited with code ".toList ++ (toString c).toList ++ ". ".toList ++
    stderr.take 500

/-- The outcome decision of the close handler, after the final flush:
exit 0 or any accumulated text resolves through `onComplete`; a nonzero
exit with no text rejects through `onError` (with a stderr excerpt when
stderr is nonempty); a null exit status (killed) resolves through
`onComplete`. -/
def closeOutcome (st : SessState) (code : Option Int) (stderr : Str) : List Out :=
  if code = some 0 ∨ st.fullText ≠ [] then
    [Out.complete st.fullText st.lastUsage]
  else if code ≠ none then
    if trimChars stderr ≠ [] ∧ st.fullText = [] then
      [Out.err (exitMsgStderr (code.getD 0) stderr)]
    else [Out.err (exitMsgPlain (code.getD 0))]
  else [Out.complete st.fullText st.lastUsage]

/-- Whether the `sendMessage` promise resolves (`true`) or rejects
(`false`) at close, mirroring the branch structure of the close
handler. -/
def closeResolves (st : SessState) (code : Option Int) : Bool :=
  if code = some 0 ∨ st.fullText ≠ [] then true
  else if code ≠ none then false
  else true

/-- The whole close handler: final flush of the leftover buffer, then
the outcome decision. -/
def closeSession (buf : Str) (st : SessState) (code : Option Int) (stderr : Str) :
    SessState × List Out :=
  let p := finalFlush buf st
  (p.1, p.2 ++ closeOutcome p.1 code stderr)

/-- A fresh session: empty buffer, empty accumulated text, no usage. -/
def initMachine : Machine := { buf := [], st := { fullText := [], lastUsage := none }, outs := [] }

/-- The callback trace of one whole session: stdout chunks delivered in
arrival order, then the close event with the given exit status and
buffered stderr. -/
def runSession (chunks : List Str) (code : Option Int) (stderr : Str) : List Out :=
  let m := feedChunks initMachine chunks
  m.outs ++ (closeSession m.buf m.st code stderr).2

/-- Sandbox modes: "read-only" | "workspace-write" | "danger-full-access". -/
inductive SandboxMode where
  | readOnly
  | workspaceWrite
  | dangerFullAccess
deriving Repr, DecidableEq

/-- Reasoning efforts: "low" | "medium" | "high". -/
inductive ReasoningEffort where
  | low
  | medium
  | high
deriving Repr, DecidableEq

/-- The CLI spelling of a reasoning effort. -/
def effortText : ReasoningEffort → Str
  | .low => "low".toList
  | .medium => "medium".toList
  | .high => "high".toList

/-- The settings fields consumed by the service and the chat view.
`modelOverride` defaults to the empty string, whose JavaScript
truthiness is falsity; `contextBudgetRatio` is a JavaScript number,
modelled as an exact rational. -/
structure CodexChatSettings where
  sandboxMode : SandboxMode
  maxContextLength : Nat
  modelOverride : Str
  reasoningEffort : ReasoningEffort
  memoryTurns : Nat
  contextBudgetRatio : ℚ
deriving Repr

/-- Embedding of `CodexService.buildArgs`: the argument vector passed to the agent
CLI, with flags pushed in source order. -/
def buildArgs (settings : CodexChatSettings) (prompt : Str) : List Str :=
  (["exec".toList, "--json".toList] ++
    (match settings.sandboxMode with
     | .dangerFullAccess => ["--sandbox".toList, "danger-full-access".toList]
     | .workspaceWrite => ["--full-auto".toList]
     | .readOnly => []) ++
    (if settings.modelOverride ≠ [] then ["--model".toList, settings.modelOverride] else []) ++
    (if settings.reasoningEffort ≠ .medium then
      ["--reasoning-effort".toList, effortText settings.reasoningEffort] else []) ++
    ["--skip-git-repo-check".toList]) ++ [prompt]

/-- The sandbox flags of the claim's grammar: omitted for the default
read-only mode. -/
def sandboxArgs : SandboxMode → List Str
  | .dangerFullAccess => ["--sandbox".toList, "danger-full-access".toList]
  | .workspaceWrite => ["--full-auto".toList]
  | .readOnly => []

/-- The model-override flags: present iff an override is configured. -/
def modelArgs (override : Str) : List Str :=
  if override ≠ [] then ["--model".toList, override] else []

/-- The reasoning-effort flags: present iff the effort differs from the
default "medium". -/
def effortArgs (e : ReasoningEffort) : List Str :=
  if e ≠ .medium then ["--reasoning-effort".toList, effortText e] else []

/-- The budget split of `handleSend`: `vaultBudget = floor(total * ratio)`,
`memoryBudget = total - vaultBudget`. -/
def budgetSplit (total : Nat) (ratio : ℚ) : Int × Int :=
  let vaultBudget : Int := ⌊(total : ℚ) * ratio⌋
  (vaultBudget, (total : Int) - vaultBudget)

/-- A chat message of the conversation history. -/
structure ChatMessage where
  role : Bool -- `true` = "user", `false` = "assistant"
  content : Str
deriving Repr, DecidableEq

/-- The rendered role label. -/
def roleLabel (isUser : Bool) : Str :=
  if isUser then "User".toList else "Assistant".toList

/-- The truncation marker of the memory builder. -/
def memTruncMarker : Str := "...(truncated)".toList

/-- The memory preamble header. -/
def memHeader : Str := "Previous conversation:".toList ++ [nlChar]

/-- Render one history message as a role-prefixed line, capping the
content at `max 500 ((maxChars - totalLength) / 2)`.  (The JavaScript
`Math.floor` of a possibly negative difference is below 500 exactly when
the truncated `Nat` subtraction is, so the outer `max` coincides.) -/
def renderMemLine (maxChars totalLength : Nat) (msg : ChatMessage) : Str :=
  roleLabel msg.role ++ ": ".toList ++
    (if msg.content.length > max 500 ((maxChars - totalLength) / 2) then
      msg.content.take (max 500 ((maxChars - totalLength) / 2)) ++ memTruncMarker
    else msg.content) ++ [nlChar]

/-- The inclusion loop of `buildConversationMemory`: stop (break) as soon
as a rendered line would push the cumulative length past `maxChars`. -/
def memLoop (maxChars : Nat) : List ChatMessage → Nat → List Str → List Str × Nat
  | [], total, parts => (parts, total)
  | msg :: rest, total, parts =>
    if total + (renderMemLine maxChars total msg).length > maxChars then (parts, total)
    else
      memLoop maxChars rest (total + (renderMemLine maxChars total msg).length)
        (parts ++ [renderMemLine maxChars total msg])

/-- JavaScript `messages.slice(-(n))` for a non-negative `n`: the last `n` elements,
except that `slice(-0)` is `slice(0)`, the whole array. -/
def jsSliceLast (n : Nat) (l : List ChatMessage) : List ChatMessage :=
  if n = 0 then l else l.drop (l.length - n)

/-- Embedding of `CodexChatView.buildConversationMemory`. -/
def buildConversationMemory (memoryTurns : Nat) (messages : List ChatMessage)
    (maxChars : Nat) : Str :=
  if messages = [] then []
  else
    let recentMessages := jsSliceLast (memoryTurns * 2) messages
    if recentMessages = [] then []
    else
      let parts := (memLoop maxChars recentMessages memHeader.length [memHeader]).1
      (parts ++ [[nlChar]]).flatten

/-- The header of one formatted note-context unit:
`Note: <title> (<path>)\n`. -/
def noteHeader (title path : Str) : Str :=
  "Note: ".toList ++ title ++ " (".toList ++ path ++ ")".toList ++ [nlChar]

/-- The truncation marker of the note-context formatter. -/
def noteTruncMarker : Str := [nlChar] ++ "...(truncated)".toList

/-- Embedding of `VaultContext.formatNoteContext`. -/
def formatNoteContext (title path content : Str) (maxLength : Nat) : Str :=
  let header := noteHeader title path
  let available : Int := (maxLength : Int) - header.length - 10
  if available ≤ 0 then []
  else
    let trimmedContent :=
      if (content.length : Int) > available then
        content.take available.toNat ++ noteTruncMarker
      else content
    header ++ trimmedContent ++ [nlChar]

/-- The structured line of the spec's scenario:
`{"type":"item.completed","item":{"type":"agent_message","text":"Hi there"}}`. -/
def agentMsgLine : Str :=
  [obrace] ++ "\"type\":\"item.completed\",\"item\":".toList ++ [obrace] ++
    "\"type\":\"agent_message\",\"text\":\"Hi there\"".toList ++ [cbrace, cbrace]

/-- A structured turn-failure line:
`{"type":"turn.failed","error":{"message":"x"}}`. -/
def turnFailedLine : Str :=
  [obrace] ++ "\"type\":\"turn.failed\",\"error\":".toList ++ [obrace] ++
    "\"message\":\"x\"".toList ++ [cbrace, cbrace]

/-- The parsed value of `agentMsgLine`. -/
def agentMsgEvent : Json :=
  Json.obj [("type".toList, .str ("item.completed".toList)),
    ("item".toList, .obj [("type".toList, .str ("agent_message".toList)),
      ("text".toList, .str ("Hi there".toList))])]

/-- The configuration of the C6 scenario: read-only sandbox, no model
override, medium effort (the remaining fields at their defaults). -/
def scenarioSettings : CodexChatSettings :=
  { sandboxMode := .readOnly
    maxContextLength := 10000
    modelOverride := []
    reasoningEffort := .medium
    memoryTurns := 10
    contextBudgetRatio := 6 / 10 }

/-- C6: the argument vector is
`exec --json [--sandbox danger-full-access | --full-auto] [--model <name>]
[--reasoning-effort <low|high>] --skip-git-repo-check <prompt>`; the
sandbox flag is omitted for the default read-only mode, `--model` is
present iff a model override is configured, `--reasoning-effort` is
present iff the effort differs from "medium", the prompt is the final
argument; for prompt "hello" with read-only sandbox, no model and medium
effort the vector is `["exec","--json","--skip-git-repo-check","hello"]`. -/
theorem c6_argVector (settings : CodexChatSettings) (prompt : Str) :
    buildArgs settings prompt =
      ["exec".toList, "--json".toList] ++ sandboxArgs settings.sandboxMode ++
        modelArgs settings.modelOverride ++ effortArgs settings.reasoningEffort ++
        ["--skip-git-repo-check".toList, prompt] ∧
    sandboxArgs .readOnly = [] ∧
    (modelArgs settings.modelOverride = [] ↔ settings.modelOverride = []) ∧
    (effortArgs settings.reasoningEffort = [] ↔ settings.reasoningEffort = .medium) ∧
    (buildArgs settings prompt).getLast? = some prompt ∧
    buildArgs scenarioSettings ("hello".toList) =
      ["exec".toList, "--json".toList, "--skip-git-repo-check".toList, "hello".toList] := by
  refine ⟨?_, rfl, ?_, ?_, ?_, by rfl⟩
  · simp only [buildArgs, sandboxArgs, modelArgs, effortArgs]
    cases settings.sandboxMode <;> simp
  · simp only [modelArgs]
    split <;> simp_all
  · simp only [effortArgs]
    split <;> simp_all
  · rw [buildArgs, List.getLast?_concat]

/-- C9: the budget split computes `contextBudget = floor(total * ratio)`
and `memoryBudget = total - contextBudget`, so the two shares always sum
to the total; for ratio 0.6 and total 10000 the shares are 6000 and
4000.  (JavaScript numbers are modelled as exact rationals.) -/
theorem c9_budgetSplit (total : Nat) (ratio : ℚ) (h0 : 0 < ratio) (h1 : ratio < 1) :
    (budgetSplit total ratio).1 + (budgetSplit total ratio).2 = total ∧
    (budgetSplit total ratio).1 = ⌊(total : ℚ) * ratio⌋ ∧
    budgetSplit 10000 (6 / 10) = (6000, 4000) := by
  refine ⟨by simp [budgetSplit], rfl, ?_⟩
  have h : ((10000 : Nat) : ℚ) * (6 / 10) = ((6000 : ℤ) : ℚ) := by norm_num
  simp only [budgetSplit, h, Int.floor_intCast]
  norm_num [Prod.ext_iff]

/-- Witness for C9 at total 10000 and ratio 6/10. -/
theorem c9_budgetSplit_witness :
    (budgetSplit 10000 (6 / 10)).1 + (budgetSplit 10000 (6 / 10)).2 = (10000 : Nat) ∧
    (budgetSplit 10000 (6 / 10)).1 = ⌊((10000 : Nat) : ℚ) * (6 / 10)⌋ ∧
    budgetSplit 10000 (6 / 10) = (6000, 4000) :=
  c9_budgetSplit 10000 (6 / 10) (by norm_num) (by norm_num)

/-- C10: note-context formatting returns the empty string exactly when
the available length (`maxLength` minus the header length minus the
fixed margin 10) is non-positive — in particular whenever `maxLength` is
smaller than the header's own length — and otherwise emits the header
plus the content truncated to the available length, with a truncation
marker appended when cut; no negative-length slice is ever taken. -/
theorem c10_formatNoteContext (title path content : Str) (maxLength : Nat) :
    (formatNoteContext title path content maxLength = [] ↔
      (maxLength : Int) - (noteHeader title path).length - 10 ≤ 0) ∧
    (maxLength < (noteHeader title path).length →
      formatNoteContext title path content maxLength = []) ∧
    (∀ avail : Nat, (maxLength : Int) - (noteHeader title path).length - 10 = (avail : Int) →
      0 < avail →
      (content.length ≤ avail →
        formatNoteContext title path content maxLength =
          noteHeader title path ++ content ++ [nlChar]) ∧
      (content.length > avail →
        formatNoteContext title path content maxLength =
          noteHeader title path ++ (content.take avail ++ noteTruncMarker) ++ [nlChar] ∧
        (content.take avail).length = avail)) := by
  refine ⟨?_, ?_, ?_⟩
  · constructor
    · intro h
      by_contra hpos
      push_neg at hpos
      rw [formatNoteContext] at h
      rw [if_neg (by omega)] at h
      have : noteHeader title path ≠ [] := by simp [noteHeader]
      cases hh : noteHeader title path with
      | nil => exact this hh
      | cons x xs => rw [hh] at h; simp at h
    · intro h
      rw [formatNoteContext, if_pos h]
  · intro h
    rw [formatNoteContext, if_pos (by omega)]
  · intro avail heq hpos
    constructor
    · intro hle
      rw [formatNoteContext, if_neg (by omega)]
      rw [if_neg (by omega)]
    · intro hgt
      rw [formatNoteContext, if_neg (by omega)]
      rw [if_pos (by omega)]
      constructor
      · have : ((maxLength : Int) - (noteHeader title path).length - 10).toNat = avail := by
          omega
        rw [this, List.append_assoc]
      · rw [List.length_take]
        omega

/-- Witness for C10: a `maxLength` of 5 is smaller than the header
length of `Note: T (p)\n` (12), so the unit is the empty string; with
`maxLength` 40 the content survives untruncated. -/
theorem c10_formatNoteContext_witness :
    formatNoteContext ("T".toList) ("p".toList) ("abc".toList) 5 = [] ∧
    formatNoteContext ("T".toList) ("p".toList) ("abc".toList) 40 =
      noteHeader ("T".toList) ("p".toList) ++ ("abc".toList) ++ [nlChar] :=
  ⟨(c10_formatNoteContext ("T".toList) ("p".toList) ("abc".toList) 5).2.1 (by decide),
   ((c10_formatNoteContext ("T".toList) ("p".toList) ("abc".toList) 40).2.2 18
      (by decide) (by decide)).1 (by decide)⟩

/-- C4 counterexample: for the complete non-JSON line `" hi"` (leading
space), `onTextChunk` receives the TRIMMED line plus a newline
(`"hi\n"`), not the raw line plus a newline (`" hi\n"`). -/
theorem c4_counterexample :
    (processLine { fullText := [], lastUsage := none } (" hi".toList)).2 =
      [Out.text (trimChars (" hi".toList) ++ [nlChar])] ∧
    trimChars (" hi".toList) ++ [nlChar] ≠ " hi".toList ++ [nlChar] ∧
    (processLine { fullText := [], lastUsage := none } (" hi".toList)).2 ≠
      [Out.text (" hi".toList ++ [nlChar])] := by
  refine ⟨rfl, by decide, ?_⟩
  intro h
  have h1 : (processLine { fullText := [], lastUsage := none } (" hi".toList)).2 =
      [Out.text (trimChars (" hi".toList) ++ [nlChar])] := rfl
  have h2 : [Out.text (trimChars (" hi".toList) ++ [nlChar])] =
      [Out.text (" hi".toList ++ [nlChar])] := h1.symm.trans h
  simp only [List.cons.injEq, Out.text.injEq, and_true] at h2
  exact absurd h2 (by decide)

/-- C4 amended: for every complete stdout line that is nonempty after
trimming and fails JSON decoding, `onTextChunk` receives the trimmed
line plus a newline, the same text is appended to the accumulated
output, `lastUsage` is untouched, and `onEvent` is not invoked for that
line (whitespace-only lines are skipped entirely). -/
theorem c4_textFallback (st : SessState) (line : Str)
    (hne : trimChars line ≠ []) (hfail : parseJson (trimChars line) = none) :
    processLine st line =
      ({ fullText := st.fullText ++ trimChars line ++ [nlChar], lastUsage := st.lastUsage },
        [Out.text (trimChars line ++ [nlChar])]) ∧
    (∀ e, Out.ev e ∉ (processLine st line).2) := by
  have hmain : processLine st line =
      ({ fullText := st.fullText ++ trimChars line ++ [nlChar], lastUsage := st.lastUsage },
        [Out.text (trimChars line ++ [nlChar])]) := by
    unfold processLine
    rw [if_neg hne, hfail]
  refine ⟨hmain, ?_⟩
  intro e hmem
  rw [hmain] at hmem
  simp at hmem

/-- Witness for C4 (amended) at the concrete non-JSON line `"hello"`. -/
theorem c4_textFallback_witness :
    processLine { fullText := [], lastUsage := none } ("hello".toList) =
      ({ fullText := [] ++ trimChars ("hello".toList) ++ [nlChar], lastUsage := none },
        [Out.text (trimChars ("hello".toList) ++ [nlChar])]) ∧
    (∀ e, Out.ev e ∉ (processLine { fullText := [], lastUsage := none } ("hello".toList)).2) :=
  c4_textFallback { fullText := [], lastUsage := none } ("hello".toList) (by decide) rfl

/-- The final flush emits at most one callback, and it is an `onEvent`
or an `onTextChunk` — never a terminal callback. -/
theorem finalFlush_outs_shape (buf : Str) (st : SessState) :
    (finalFlush buf st).2 = [] ∨ (∃ e, (finalFlush buf st).2 = [Out.ev e]) ∨
    (∃ t, (finalFlush buf st).2 = [Out.text t]) := by
  unfold finalFlush
  by_cases h : trimChars buf = []
  · rw [if_pos h]
    left
    rfl
  · rw [if_neg h]
    cases hp : parseJson (trimChars buf) with
    | none =>
      right; right
      exact ⟨_, rfl⟩
    | some event =>
      right; left
      refine ⟨event, ?_⟩
      dsimp only
      cases agentMessageText event <;> rfl

/-- The final flush never invokes `onError`. -/
theorem finalFlush_no_err (buf : Str) (st : SessState) (m : Str) :
    Out.err m ∉ (finalFlush buf st).2 := by
  rcases finalFlush_outs_shape buf st with h | ⟨e, h⟩ | ⟨t, h⟩ <;> rw [h] <;> simp

/-- The final flush never invokes `onComplete`. -/
theorem finalFlush_no_complete (buf : Str) (st : SessState) (t : Str) (u : Option Json) :
    Out.complete t u ∉ (finalFlush buf st).2 := by
  rcases finalFlush_outs_shape buf st with h | ⟨e, h⟩ | ⟨t2, h⟩ <;> rw [h] <;> simp

/-- C2: at process close (after the final buffer flush), the outcome is
decided by the exit status and the accumulated text: exit 0 or any
accumulated text yields exactly `onComplete(fullText, lastUsage)` and
the operation resolves; a nonzero exit with no accumulated text yields
exactly `onError` carrying the exit code and at most 500 characters of
stderr, and the operation rejects; a null exit status (killed) yields
`onComplete` with whatever text accumulated, and cancellation is never
reported through `onError`. -/
theorem c2_closeOutcome (buf : Str) (st : SessState) (code : Option Int) (stderr : Str) :
    (closeSession buf st code stderr).2 =
      (finalFlush buf st).2 ++ closeOutcome (finalFlush buf st).1 code stderr ∧
    (∀ m, Out.err m ∉ (finalFlush buf st).2) ∧
    (code = some 0 ∨ (finalFlush buf st).1.fullText ≠ [] →
      closeOutcome (finalFlush buf st).1 code stderr =
        [Out.complete (finalFlush buf st).1.fullText (finalFlush buf st).1.lastUsage] ∧
      closeResolves (finalFlush buf st).1 code = true) ∧
    (∀ c : Int, code = some c → c ≠ 0 → (finalFlush buf st).1.fullText = [] →
      (trimChars stderr ≠ [] →
        closeOutcome (finalFlush buf st).1 code stderr = [Out.err (exitMsgStderr c stderr)]) ∧
      (trimChars stderr = [] →
        closeOutcome (finalFlush buf st).1 code stderr = [Out.err (exitMsgPlain c)]) ∧
      (stderr.take 500).length ≤ 500 ∧
      closeResolves (finalFlush buf st).1 code = false) ∧
    (code = none →
      closeOutcome (finalFlush buf st).1 code stderr =
        [Out.complete (finalFlush buf st).1.fullText (finalFlush buf st).1.lastUsage] ∧
      closeResolves (finalFlush buf st).1 code = true ∧
      ∀ m, Out.err m ∉ (closeSession buf st code stderr).2) := by
  refine ⟨rfl, fun m => finalFlush_no_err buf st m, ?_, ?_, ?_⟩
  · intro h
    unfold closeOutcome closeResolves
    rw [if_pos h, if_pos h]
    exact ⟨rfl, rfl⟩
  · intro c hc hc0 hft
    subst hc
    have hneg : ¬ ((some c : Option Int) = some 0 ∨ (finalFlush buf st).1.fullText ≠ []) := by
      simp [hft, hc0]
    unfold closeOutcome closeResolves
    have hsome : (some c : Option Int) ≠ none := by simp
    rw [if_neg hneg, if_neg hneg, if_pos hsome, if_pos hsome]
    refine ⟨?_, ?_, ?_, rfl⟩
    · intro hstderr
      rw [if_pos ⟨hstderr, hft⟩]
      rfl
    · intro hstderr
      rw [if_neg (by simp [hstderr])]
      rfl
    · rw [List.length_take]
      omega
  · intro hnone
    subst hnone
    have houtc : closeOutcome (finalFlush buf st).1 none stderr =
        [Out.complete (finalFlush buf st).1.fullText (finalFlush buf st).1.lastUsage] := by
      unfold closeOutcome
      by_cases h : (none : Option Int) = some 0 ∨ (finalFlush buf st).1.fullText ≠ []
      · rw [if_pos h]
      · rw [if_neg h, if_neg (by simp)]
    have hres : closeResolves (finalFlush buf st).1 none = true := by
      unfold closeResolves
      by_cases h : (none : Option Int) = some 0 ∨ (finalFlush buf st).1.fullText ≠ []
      · rw [if_pos h]
      · rw [if_neg h, if_neg (by simp)]
    refine ⟨houtc, hres, ?_⟩
    intro m hmem
    rw [closeSession] at hmem
    simp only [List.mem_append] at hmem
    rcases hmem with hmem | hmem
    · exact finalFlush_no_err buf st m hmem
    · rw [houtc] at hmem
      simp at hmem

/-- Witness for C2: a nonzero exit (code 2) with no accumulated text and
nonempty stderr reports `onError` with the exit code and the stderr
excerpt. -/
theorem c2_closeOutcome_witness :
    closeOutcome (finalFlush [] { fullText := [], lastUsage := none }).1 (some 2)
      ("oops".toList) = [Out.err (exitMsgStderr 2 ("oops".toList))] :=
  ((c2_closeOutcome [] { fullText := [], lastUsage := none } (some 2) ("oops".toList)).2.2.2.1
    2 rfl (by decide) rfl).1 (by decide)

/-- A string with no newline: a line fragment not yet terminated. -/
abbrev noNl (s : Str) : Prop := nlChar ∉ s

/-- Splitting via `split("\n")` never returns an empty list. -/
theorem splitNl_ne_nil (s : Str) : splitNl s ≠ [] := by
  cases s with
  | nil => simp [splitNl]
  | cons c cs =>
    rw [splitNl]
    by_cases h : c = nlChar
    · rw [if_pos h]
      simp
    · rw [if_neg h]
      cases splitNl cs <;> simp

/-- Splitting a newline-free string yields that string as the only
part. -/
theorem splitNl_noNl (s : Str) (h : noNl s) : splitNl s = [s] := by
  induction s with
  | nil => rfl
  | cons c cs ih =>
    have hc : ¬ c = nlChar := fun he => h (by rw [he]; exact List.mem_cons_self _ _)
    have hcs : noNl cs := fun hm => h (List.mem_cons_of_mem _ hm)
    rw [splitNl, if_neg hc, ih hcs]

/-- Splitting `b ++ "\n" ++ t` for newline-free `b` yields `b` followed
by the parts of `t`. -/
theorem splitNl_append_nlcons (b t : Str) (h : noNl b) :
    splitNl (b ++ nlChar :: t) = b :: splitNl t := by
  induction b with
  | nil =>
    rw [List.nil_append, splitNl, if_pos rfl]
  | cons c bs ih =>
    have hc : ¬ c = nlChar := fun he => h (by rw [he]; exact List.mem_cons_self _ _)
    have hbs : noNl bs := fun hm => h (List.mem_cons_of_mem _ hm)
    rw [List.cons_append, splitNl, if_neg hc, ih hbs]

/-- On a nonempty list `getLastD` does not depend on the default on a nonempty list. -/
theorem getLastD_of_ne_nil {α : Type} (l : List α) (a b : α) (h : l ≠ []) :
    l.getLastD a = l.getLastD b := by
  cases l with
  | nil => exact absurd rfl h
  | cons x xs => rw [List.getLastD_cons, List.getLastD_cons]

/-- Computing `dropLast` of a cons with nonempty tail. -/
theorem dropLast_cons_ne {α : Type} (x : α) (l : List α) (h : l ≠ []) :
    (x :: l).dropLast = x :: l.dropLast := by
  cases l with
  | nil => exact absurd rfl h
  | cons y ys => rfl

/-- The split-based chunk handler agrees with the character-level
machine on every chunk whose starting buffer is newline-free. -/
theorem feedChunk_eq_feedString (chunk : Str) :
    ∀ m : Machine, noNl m.buf → feedChunk m chunk = feedString m chunk := by
  induction chunk with
  | nil =>
    intro m h
    show feedChunk m [] = m
    rw [feedChunk]
    rw [show m.buf ++ [] = m.buf from List.append_nil _]
    rw [splitNl_noNl m.buf h]
    show ({ buf := m.buf, st := m.st, outs := m.outs ++ [] } : Machine) = m
    rw [List.append_nil]
  | cons c cs ih =>
    intro m h
    by_cases hc : c = nlChar
    · subst hc
      have hstep : stepChar m nlChar =
          { buf := [], st := (processLine m.st m.buf).1,
            outs := m.outs ++ (processLine m.st m.buf).2 } := by
        rw [stepChar, if_pos rfl]
      have key : feedChunk m (nlChar :: cs) = feedChunk (stepChar m nlChar) cs := by
        rw [feedChunk, feedChunk, hstep]
        rw [splitNl_append_nlcons m.buf cs h]
        rw [dropLast_cons_ne _ _ (splitNl_ne_nil cs)]
        rw [show ([] : Str) ++ cs = cs from List.nil_append _]
        rw [processLines]
        rw [List.getLastD_cons]
        rw [getLastD_of_ne_nil (splitNl cs) m.buf [] (splitNl_ne_nil cs)]
        rw [List.append_assoc]
      rw [key, ih _ (by rw [hstep]; exact List.not_mem_nil _)]
      rfl
    · have hstep : stepChar m c = { m with buf := m.buf ++ [c] } := by
        rw [stepChar, if_neg hc]
      have key : feedChunk m (c :: cs) = feedChunk (stepChar m c) cs := by
        rw [feedChunk, feedChunk, hstep]
        rw [show m.buf ++ c :: cs = (m.buf ++ [c]) ++ cs by
          rw [List.append_assoc]; rfl]
      have hbuf : noNl (stepChar m c).buf := by
        rw [hstep]
        intro hmem
        rcases List.mem_append.mp hmem with hmem | hmem
        · exact h hmem
        · simp at hmem
          exact hc hmem.symm
      rw [key, ih _ hbuf]
      rfl

/-- Stepping with `stepChar` keeps the buffer newline-free. -/
theorem noNl_stepChar (m : Machine) (c : Char) (h : noNl m.buf) :
    noNl (stepChar m c).buf := by
  rw [stepChar]
  by_cases hc : c = nlChar
  · rw [if_pos hc]
    exact List.not_mem_nil _
  · rw [if_neg hc]
    intro hmem
    rcases List.mem_append.mp hmem with hmem | hmem
    · exact h hmem
    · simp at hmem
      exact hc hmem.symm

/-- Feeding with `feedString` keeps the buffer newline-free. -/
theorem noNl_feedString (s : Str) :
    ∀ m : Machine, noNl m.buf → noNl (feedString m s).buf := by
  induction s with
  | nil => intro m h; exact h
  | cons c cs ih =>
    intro m h
    exact ih (stepChar m c) (noNl_stepChar m c h)

/-- Feeding chunks one by one equals feeding their concatenation
character by character. -/
theorem feedChunks_eq_feedString (chunks : List Str) :
    ∀ m : Machine, noNl m.buf → feedChunks m chunks = feedString m chunks.flatten := by
  induction chunks with
  | nil => intro m h; rfl
  | cons ch rest ih =>
    intro m h
    show feedChunks (feedChunk m ch) rest = feedString m (ch ++ rest.flatten)
    rw [feedChunk_eq_feedString ch m h]
    rw [ih _ (noNl_feedString ch m h)]
    rw [feedString, feedString, feedString, List.foldl_append]

/-- Feeding a newline-free string only extends the buffer: no decode, no
callback. -/
theorem feedString_noNl_id (s : Str) :
    ∀ m : Machine, noNl s → feedString m s = { m with buf := m.buf ++ s } := by
  induction s with
  | nil =>
    intro m _
    show m = { m with buf := m.buf ++ [] }
    rw [List.append_nil]
  | cons c cs ih =>
    intro m h
    have hc : ¬ c = nlChar := fun he => h (by rw [he]; exact List.mem_cons_self _ _)
    have hcs : noNl cs := fun hm => h (List.mem_cons_of_mem _ hm)
    show feedString (stepChar m c) cs = { m with buf := m.buf ++ c :: cs }
    rw [ih _ hcs, stepChar, if_neg hc]
    show ({ m with buf := (m.buf ++ [c]) ++ cs } : Machine) = _
    rw [List.append_assoc]
    rfl

/-- C3 amended: chunk boundaries falling on CHARACTER boundaries are
invisible.  Delivering the decoded stdout character stream in arbitrary
character-level chunks produces exactly the same buffer, state and
callback sequence as delivering it as one chunk; and a stream holding
no newline produces no callbacks at all (an unterminated line fragment
is never decoded), merely extending the buffer.  (Byte boundaries
inside a multi-byte UTF-8 character are NOT invisible, because the
handler uses a fresh non-streaming text decoder per chunk; see the
accompanying byte-level counterexample.) -/
theorem c3_chunkInvariance (m : Machine) (chunks : List Str) (h : noNl m.buf) :
    feedChunks m chunks = feedChunk m chunks.flatten ∧
    (noNl chunks.flatten →
      feedChunks m chunks = { buf := m.buf ++ chunks.flatten, st := m.st, outs := m.outs }) := by
  constructor
  · rw [feedChunks_eq_feedString chunks m h, feedChunk_eq_feedString chunks.flatten m h]
  · intro hn
    rw [feedChunks_eq_feedString chunks m h, feedString_noNl_id chunks.flatten m hn]

/-- Witness for C3: the line `"hi"` delivered in two one-character
chunks, then in one unterminated chunk. -/
theorem c3_chunkInvariance_witness :
    feedChunks initMachine [['h'], ['i']] = feedChunk initMachine ([['h'], ['i']] : List Str).flatten ∧
    feedChunks initMachine [['h'], ['i']] =
      { buf := initMachine.buf ++ ([['h'], ['i']] : List Str).flatten, st := initMachine.st,
        outs := initMachine.outs } :=
  ⟨(c3_chunkInvariance initMachine [['h'], ['i']] (by decide)).1,
   (c3_chunkInvariance initMachine [['h'], ['i']] (by decide)).2 (by decide)⟩

/-- C3 counterexample: byte-level chunk boundaries are NOT invisible.
The line `é\n` (bytes C3 A9 0A) delivered as one chunk decodes to `é`
and yields `onTextChunk("é\n")`; delivered split inside the two-byte
character (`[C3] ++ [A9 0A]`), each fragment is decoded by a fresh
non-streaming decoder to U+FFFD, yielding a different callback
sequence — refuting invariance for arbitrary byte boundaries. -/
theorem c3_counterexample :
    List.flatten [[0xC3], [0xA9, 0x0A]] = [0xC3, 0xA9, 0x0A] ∧
    (feedByteChunks initMachine [[0xC3], [0xA9, 0x0A]]).outs =
      [Out.text [replacementChar, replacementChar, nlChar]] ∧
    (feedByteChunks initMachine [[0xC3, 0xA9, 0x0A]]).outs =
      [Out.text [Char.ofNat 0xE9, nlChar]] ∧
    (feedByteChunks initMachine [[0xC3], [0xA9, 0x0A]]).outs ≠
      (feedByteChunks initMachine [[0xC3, 0xA9, 0x0A]]).outs := by
  have ha : (feedByteChunks initMachine [[0xC3], [0xA9, 0x0A]]).outs =
      [Out.text [replacementChar, replacementChar, nlChar]] := rfl
  have hb : (feedByteChunks initMachine [[0xC3, 0xA9, 0x0A]]).outs =
      [Out.text [Char.ofNat 0xE9, nlChar]] := rfl
  refine ⟨rfl, ha, hb, ?_⟩
  intro h
  have h2 : [Out.text [replacementChar, replacementChar, nlChar]] =
      [Out.text [Char.ofNat 0xE9, nlChar]] := ha.symm.trans (h.trans hb)
  simp only [List.cons.injEq, Out.text.injEq, and_true] at h2
  exact absurd h2 (by decide)

/-- The callbacks of the decode-success branch, explicitly: `onEvent`,
then the optional agent-message `onTextChunk`, then the optional
`onError` of a failure record. -/
theorem dispatchEvent_outs (st : SessState) (e : Json) :
    (dispatchEvent st e).2 =
      Out.ev e ::
        ((match agentMessageText e with
          | some t => if typeIs e ("item.completed".toList) then [Out.text t] else []
          | none => []) ++
         (if typeIs e ("turn.failed".toList) || typeIs e ("error".toList) then
            [Out.err (errMsgOf e)] else [])) := by
  unfold dispatchEvent
  dsimp only
  cases agentMessageText e <;> dsimp only <;> split_ifs <;> rfl

/-- The decode-success branch never invokes `onComplete`. -/
theorem dispatchEvent_no_complete (st : SessState) (e : Json) (t : Str) (u : Option Json) :
    Out.complete t u ∉ (dispatchEvent st e).2 := by
  rw [dispatchEvent_outs]
  cases agentMessageText e <;> dsimp only <;> split_ifs <;> simp

/-- The per-line handler never invokes `onComplete`. -/
theorem processLine_no_complete (st : SessState) (line : Str) (t : Str) (u : Option Json) :
    Out.complete t u ∉ (processLine st line).2 := by
  unfold processLine
  by_cases h : trimChars line = []
  · rw [if_pos h]
    simp
  · rw [if_neg h]
    cases hp : parseJson (trimChars line) with
    | none => simp
    | some e =>
      dsimp only
      exact dispatchEvent_no_complete st e t u

/-- Processing complete lines never invokes `onComplete`. -/
theorem processLines_no_complete (ls : List Str) :
    ∀ (st : SessState) (t : Str) (u : Option Json),
      Out.complete t u ∉ (processLines st ls).2 := by
  induction ls with
  | nil =>
    intro st t u
    simp [processLines]
  | cons l rest ih =>
    intro st t u
    rw [processLines]
    dsimp only
    intro hmem
    rcases List.mem_append.mp hmem with h | h
    · exact processLine_no_complete st l t u h
    · exact ih _ t u h

/-- The streaming phase never invokes `onComplete`. -/
theorem feedChunks_no_complete (chunks : List Str) :
    ∀ m : Machine, (∀ (t : Str) (u : Option Json), Out.complete t u ∉ m.outs) →
      ∀ (t : Str) (u : Option Json), Out.complete t u ∉ (feedChunks m chunks).outs := by
  induction chunks with
  | nil => intro m h; exact h
  | cons ch rest ih =>
    intro m h
    apply ih
    intro t u hmem
    rw [feedChunk] at hmem
    dsimp only at hmem
    rcases List.mem_append.mp hmem with h2 | h2
    · exact h t u h2
    · exact processLines_no_complete _ _ t u h2

/-- The outcome decision emits exactly one terminal callback. -/
theorem closeOutcome_terminal_count (st : SessState) (code : Option Int) (stderr : Str) :
    ((closeOutcome st code stderr).filter isTerminal).length = 1 := by
  unfold closeOutcome
  split_ifs <;> rfl

/-- C1 counterexample: a stream holding the single record
`{"type":"turn.failed","error":{"message":"x"}}` with exit code 0 fires
`onError` (from the in-stream failure record) AND `onComplete` (from the
close handler) — both callbacks fire in one session, refuting
"never both". -/
theorem c1_counterexample :
    ((runSession [turnFailedLine ++ [nlChar]] (some 0) []).filter isErrOut).length = 1 ∧
    ((runSession [turnFailedLine ++ [nlChar]] (some 0) []).filter isCompleteOut).length = 1 := by
  exact ⟨by decide, by decide⟩

/-- C1 amended: the close handler fires exactly one terminal callback
(`onComplete` or `onError`) per session, for all exit codes 0, nonzero
and null; and whenever the stdout stream contains no `turn.failed` /
`error` record (no in-stream `onError`), exactly one terminal callback
fires over the whole session.  Streams containing such records invoke
`onError` additionally, so both callbacks can fire. -/
theorem c1_exactlyOnce (chunks : List Str) (code : Option Int) (stderr : Str) :
    (((closeSession (feedChunks initMachine chunks).buf (feedChunks initMachine chunks).st
        code stderr).2).filter isTerminal).length = 1 ∧
    ((∀ o ∈ (feedChunks initMachine chunks).outs, isErrOut o = false) →
      ((runSession chunks code stderr).filter isTerminal).length = 1) := by
  have hclose : ∀ (buf : Str) (st : SessState),
      (((closeSession buf st code stderr).2).filter isTerminal).length = 1 := by
    intro buf st
    rw [closeSession]
    dsimp only
    rw [List.filter_append]
    have hff : ((finalFlush buf st).2).filter isTerminal = [] := by
      rcases finalFlush_outs_shape buf st with h | ⟨e, h⟩ | ⟨t, h⟩ <;> rw [h] <;> rfl
    rw [hff, List.nil_append]
    exact closeOutcome_terminal_count _ _ _
  refine ⟨hclose _ _, ?_⟩
  intro herr
  rw [runSession]
  rw [List.filter_append]
  have hstream : ((feedChunks initMachine chunks).outs).filter isTerminal = [] := by
    rw [List.filter_eq_nil]
    intro o ho
    have h1 := herr o ho
    have h2 : isCompleteOut o = false := by
      cases o with
      | ev e => rfl
      | text t => rfl
      | err m => rfl
      | complete t u =>
        exact absurd ho (feedChunks_no_complete chunks initMachine
          (fun t u h => absurd h (List.not_mem_nil _)) t u)
    rw [isTerminal, h1, h2]
    simp
  rw [hstream, List.nil_append]
  exact hclose _ _

/-- Witness for C1 (amended): an error-record-free stream (`"hi\n"`
split over two chunks) with exit 0 yields exactly one terminal
callback. -/
theorem c1_exactlyOnce_witness :
    ((runSession [['h'], ['i', nlChar]] (some 0) []).filter isTerminal).length = 1 :=
  (c1_exactlyOnce [['h'], ['i', nlChar]] (some 0) []).2 (by decide)

/-- C5: whenever a decoded record's nested item is an agent message with
text and the record's own type is `item.completed`, the item's text
REPLACES the accumulated output (independently of any previous text) and
is forwarded via `onTextChunk`; and the scenario: a session whose
subprocess emits the single line
`{"type":"item.completed","item":{"type":"agent_message","text":"Hi there"}}`
and exits 0 produces (besides `onEvent`) exactly
`onTextChunk("Hi there")` followed by `onComplete("Hi there", undefined)`. -/
theorem c5_agentMessageReplace :
    (∀ (st : SessState) (e : Json) (t : Str),
      agentMessageText e = some t → typeIs e ("item.completed".toList) = true →
      (dispatchEvent st e).1.fullText = t ∧ Out.text t ∈ (dispatchEvent st e).2) ∧
    (runSession [agentMsgLine ++ [nlChar]] (some 0) []).filter (fun o => !isEvOut o) =
      [Out.text ("Hi there".toList), Out.complete ("Hi there".toList) none] := by
  constructor
  · intro st e t h1 h2
    constructor
    · unfold dispatchEvent
      dsimp only
      rw [h1]
      dsimp only
      rw [if_pos h2]
      cases hu : getField e ("usage".toList) with
      | none => rfl
      | some u =>
        dsimp only
        split_ifs <;> rfl
    · rw [dispatchEvent_outs, h1]
      dsimp only
      rw [if_pos h2]
      simp
  · rfl

/-- Witness for C5 with prior accumulated text `"old"` and the parsed
scenario record. -/
theorem c5_agentMessageReplace_witness :
    (dispatchEvent { fullText := "old".toList, lastUsage := none } agentMsgEvent).1.fullText =
      "Hi there".toList ∧
    Out.text ("Hi there".toList) ∈
      (dispatchEvent { fullText := "old".toList, lastUsage := none } agentMsgEvent).2 :=
  c5_agentMessageReplace.1 { fullText := "old".toList, lastUsage := none } agentMsgEvent
    ("Hi there".toList) rfl rfl

/-- C7 counterexample: for the leftover buffer holding the complete
agent-message record (no trailing newline), the live per-line path
forwards the item's text through `onTextChunk`, but the close handler's
final pass forwards nothing — a difference not explained by the
permitted trailing-newline difference (the record decodes
successfully). -/
theorem c7_counterexample :
    (parseJson (trimChars agentMsgLine)).isSome = true ∧
    ((processLine { fullText := [], lastUsage := none } agentMsgLine).2).filter isTextOut =
      [Out.text ("Hi there".toList)] ∧
    ((finalFlush agentMsgLine { fullText := [], lastUsage := none }).2).filter isTextOut = [] :=
  ⟨rfl, rfl, rfl⟩

/-- C7 amended: the final pass dispatches the same `onEvent` as the live
path; on decode failure it appends and forwards the trimmed fragment
WITHOUT the trailing newline the live path would add; on decode success
it replaces the accumulated text by the item's text whenever the item is
an agent message with text (with no `item.completed` requirement), but
emits no `onTextChunk`, and never handles failure records or usage. -/
theorem c7_finalFlushBehaviour (buf : Str) (st : SessState) :
    ((finalFlush buf st).2).filter isEvOut = ((processLine st buf).2).filter isEvOut ∧
    (trimChars buf ≠ [] → parseJson (trimChars buf) = none →
      (finalFlush buf st).2 = [Out.text (trimChars buf)] ∧
      (processLine st buf).2 = [Out.text (trimChars buf ++ [nlChar])] ∧
      (finalFlush buf st).1.fullText = st.fullText ++ trimChars buf) ∧
    (∀ (e : Json) (tx : Str), parseJson (trimChars buf) = some e →
      agentMessageText e = some tx →
      (finalFlush buf st).1.fullText = tx ∧ (finalFlush buf st).2 = [Out.ev e]) := by
  refine ⟨?_, ?_, ?_⟩
  · by_cases h : trimChars buf = []
    · have h1 : (finalFlush buf st).2 = [] := by
        unfold finalFlush
        rw [if_pos h]
      have h2 : (processLine st buf).2 = [] := by
        unfold processLine
        rw [if_pos h]
      rw [h1, h2]
    · cases hp : parseJson (trimChars buf) with
      | none =>
        have h1 : (finalFlush buf st).2 = [Out.text (trimChars buf)] := by
          unfold finalFlush
          rw [if_neg h, hp]
        have h2 : (processLine st buf).2 = [Out.text (trimChars buf ++ [nlChar])] := by
          unfold processLine
          rw [if_neg h, hp]
        rw [h1, h2]
        rfl
      | some e =>
        have h1 : ((finalFlush buf st).2).filter isEvOut = [Out.ev e] := by
          unfold finalFlush
          rw [if_neg h, hp]
          dsimp only
          cases agentMessageText e <;> rfl
        have h2 : ((processLine st buf).2).filter isEvOut = [Out.ev e] := by
          unfold processLine
          rw [if_neg h, hp]
          dsimp only
          rw [dispatchEvent_outs]
          cases agentMessageText e <;> dsimp only <;> split_ifs <;> rfl
        rw [h1, h2]
  · intro hne hp
    have h1 : finalFlush buf st =
        ({ fullText := st.fullText ++ trimChars buf, lastUsage := st.lastUsage },
          [Out.text (trimChars buf)]) := by
      unfold finalFlush
      rw [if_neg hne, hp]
    have h2 : (processLine st buf).2 = [Out.text (trimChars buf ++ [nlChar])] := by
      unfold processLine
      rw [if_neg hne, hp]
    rw [h1, h2]
    exact ⟨rfl, rfl, rfl⟩
  · intro e tx hp htx
    have hne : trimChars buf ≠ [] := by
      intro h0
      rw [h0] at hp
      exact Option.noConfusion ((rfl : parseJson ([] : Str) = none).symm.trans hp)
    have h1 : finalFlush buf st = ({ fullText := tx, lastUsage := st.lastUsage }, [Out.ev e]) := by
      unfold finalFlush
      rw [if_neg hne, hp]
      dsimp only
      rw [htx]
    rw [h1]
    exact ⟨rfl, rfl⟩

/-- Witness for C7 (amended) at the non-JSON leftover `"leftover"` and
the successfully decoding scenario record. -/
theorem c7_finalFlushBehaviour_witness :
    ((finalFlush ("leftover".toList) { fullText := [], lastUsage := none }).2 =
      [Out.text (trimChars ("leftover".toList))] ∧
     (processLine { fullText := [], lastUsage := none } ("leftover".toList)).2 =
      [Out.text (trimChars ("leftover".toList) ++ [nlChar])] ∧
     (finalFlush ("leftover".toList) { fullText := [], lastUsage := none }).1.fullText =
      [] ++ trimChars ("leftover".toList)) ∧
    ((finalFlush agentMsgLine { fullText := [], lastUsage := none }).1.fullText =
      "Hi there".toList ∧
     (finalFlush agentMsgLine { fullText := [], lastUsage := none }).2 =
      [Out.ev agentMsgEvent]) :=
  ⟨(c7_finalFlushBehaviour ("leftover".toList) { fullText := [], lastUsage := none }).2.1
      (by decide) rfl,
   (c7_finalFlushBehaviour agentMsgLine { fullText := [], lastUsage := none }).2.2
      agentMsgEvent ("Hi there".toList) rfl rfl⟩

/-- The length of one rendered memory line, in terms of the per-message
cap `max 500 ((maxChars - totalLength) / 2)`. -/
theorem renderMemLine_length (maxChars total : Nat) (msg : ChatMessage) :
    (renderMemLine maxChars total msg).length =
      (roleLabel msg.role).length + 2 +
        (if msg.content.length > max 500 ((maxChars - total) / 2) then
          max 500 ((maxChars - total) / 2) + 14
        else msg.content.length) + 1 := by
  unfold renderMemLine
  by_cases h : msg.content.length > max 500 ((maxChars - total) / 2)
  · rw [if_pos h, if_pos h]
    simp only [List.length_append, List.length_take]
    have h2 : (": ".toList).length = 2 := rfl
    have h14 : memTruncMarker.length = 14 := rfl
    have h1 : ([nlChar] : Str).length = 1 := rfl
    omega
  · rw [if_neg h, if_neg h]
    simp only [List.length_append]
    have h2 : (": ".toList).length = 2 := rfl
    have h1 : ([nlChar] : Str).length = 1 := rfl
    omega

/-- The inclusion loop evaluated at the spec scenario: a 4000-character
budget, a user turn of 3000 `a`s and an assistant turn of 3000 `b`s.
Both lines are included: 23 + 2009 = 2032, then 2032 + 1010 = 3042,
both within budget. -/
theorem memLoop_scenario_eval :
    memLoop 4000 [{ role := true, content := List.replicate 3000 'a' },
        { role := false, content := List.replicate 3000 'b' }] 23 [memHeader] =
      ([memHeader] ++ [renderMemLine 4000 23 { role := true, content := List.replicate 3000 'a' }]
        ++ [renderMemLine 4000 2032 { role := false, content := List.replicate 3000 'b' }],
        3042) := by
  have hA : (renderMemLine 4000 23
      { role := true, content := List.replicate 3000 'a' }).length = 2009 := by
    rw [renderMemLine_length]
    have hr : (roleLabel (true : Bool)).length = 4 := rfl
    have hm : max 500 ((4000 - 23) / 2) = 1988 := rfl
    have hc : (List.replicate 3000 'a').length = 3000 := List.length_replicate 3000 'a'
    rw [hm]
    dsimp only
    rw [hc, if_pos (by norm_num), hr]
  have hB : (renderMemLine 4000 2032
      { role := false, content := List.replicate 3000 'b' }).length = 1010 := by
    rw [renderMemLine_length]
    have hr : (roleLabel (false : Bool)).length = 9 := rfl
    have hm : max 500 ((4000 - 2032) / 2) = 984 := rfl
    have hc : (List.replicate 3000 'b').length = 3000 := List.length_replicate 3000 'b'
    rw [hm]
    dsimp only
    rw [hc, if_pos (by norm_num), hr]
  rw [memLoop]
  rw [hA, if_neg (by norm_num)]
  rw [show (23 : Nat) + 2009 = 2032 from by norm_num]
  rw [memLoop]
  rw [hB, if_neg (by norm_num)]
  rw [show (2032 : Nat) + 1010 = 3042 from by norm_num]
  rw [memLoop]

/-- C8 counterexample: with a 4000-character budget and two
3000-character turns, the loop includes BOTH turns (each truncated to
its per-message cap), not only the first: the parts list holds the
header plus two message lines. -/
theorem c8_counterexample :
    (memLoop 4000 [{ role := true, content := List.replicate 3000 'a' },
        { role := false, content := List.replicate 3000 'b' }] memHeader.length
      [memHeader]).1.length = 3 ∧
    (memLoop 4000 [{ role := true, content := List.replicate 3000 'a' },
        { role := false, content := List.replicate 3000 'b' }] memHeader.length
      [memHeader]).1.length ≠ 2 := by
  have hH : memHeader.length = 23 := rfl
  rw [hH, memLoop_scenario_eval]
  exact ⟨rfl, by norm_num⟩

/-- C8 amended: the loop never lets the cumulative length pass the
budget (a rendered line that would is skipped, ending inclusion), each
message is first capped at the larger of the fixed floor 500 and half
the remaining budget; but with a 4000-character budget and two
3000-character turns BOTH turns are included after truncation, with the
cumulative length 3042 ≤ 4000. -/
theorem c8_memoryBudget :
    (∀ (maxChars : Nat) (msgs : List ChatMessage) (total : Nat) (parts : List Str),
      total ≤ maxChars → (memLoop maxChars msgs total parts).2 ≤ maxChars) ∧
    (∀ (maxChars total : Nat) (msg : ChatMessage),
      msg.content.length > max 500 ((maxChars - total) / 2) →
      renderMemLine maxChars total msg =
        roleLabel msg.role ++ ": ".toList ++
          (msg.content.take (max 500 ((maxChars - total) / 2)) ++ memTruncMarker) ++ [nlChar]) ∧
    (memLoop 4000 [{ role := true, content := List.replicate 3000 'a' },
        { role := false, content := List.replicate 3000 'b' }] memHeader.length
      [memHeader]).1.length = 3 ∧
    (memLoop 4000 [{ role := true, content := List.replicate 3000 'a' },
        { role := false, content := List.replicate 3000 'b' }] memHeader.length
      [memHeader]).2 = 3042 := by
  refine ⟨?_, ?_, ?_, ?_⟩
  · intro maxChars msgs
    induction msgs with
    | nil => intro total parts h; exact h
    | cons msg rest ih =>
      intro total parts h
      rw [memLoop]
      split_ifs with hgt
      · exact h
      · exact ih _ _ (by omega)
  · intro maxChars total msg h
    unfold renderMemLine
    rw [if_pos h]
  · have hH : memHeader.length = 23 := rfl
    rw [hH, memLoop_scenario_eval]
    rfl
  · have hH : memHeader.length = 23 := rfl
    rw [hH, memLoop_scenario_eval]

/-- Witness for C8 (amended): starting at cumulative length 23 under a
4000 budget, the final cumulative length stays within budget; and a
600-character message under a 100-character budget is capped at the
floor 500. -/
theorem c8_memoryBudget_witness :
    (memLoop 4000 [{ role := true, content := List.replicate 3000 'a' }] 23 []).2 ≤ 4000 ∧
    renderMemLine 100 0 { role := true, content := List.replicate 600 'x' } =
      roleLabel (true : Bool) ++ ": ".toList ++
        ((List.replicate 600 'x').take (max 500 ((100 - 0) / 2)) ++ memTruncMarker) ++ [nlChar] :=
  ⟨c8_memoryBudget.1 4000 [{ role := true, content := List.replicate 3000 'a' }] 23 []
      (by norm_num),
   c8_memoryBudget.2.1 100 0 { role := true, content := List.replicate 600 'x' }
      (by rw [List.length_replicate]; norm_num [Nat.max_def])⟩

end CodexPlugin
